import Mathlib

/-!
Verification of the every-mentor AI service (src/ai/main.py) against its
natural-language specification.  Python strings are modelled as lists of
Unicode code points (`List Nat`); characters whose Unicode properties
matter only through the predicates `str.isalnum` / `str.isspace` are
modelled by `PChar`, a code point together with those two boolean
attributes.  Fallible external collaborators (PIL image decoding and
transforms, `json.loads`, the OCR engine, the filesystem) are taken as
function parameters, and exception-raising code paths are modelled with
`Option` / `Except`.
-/

namespace EveryMentor

/-! ### Python string primitives -/

/-- Code points accepted by Python `str.isspace` (the Unicode whitespace
set used by `str.strip` and by the regex class used in `re.sub`). -/
def pyIsSpace (c : Nat) : Bool :=
  c ∈ [9, 10, 11, 12, 13, 28, 29, 30, 31, 32, 133, 160, 5760,
    8192, 8193, 8194, 8195, 8196, 8197, 8198, 8199, 8200, 8201, 8202,
    8232, 8233, 8239, 8287, 12288]

/-- Python `str.lstrip()`. -/
def lstrip (s : List Nat) : List Nat := s.dropWhile pyIsSpace

/-- Python `str.rstrip()`. -/
def rstrip (s : List Nat) : List Nat := (s.reverse.dropWhile pyIsSpace).reverse

/-- Python `str.strip()`. -/
def pystrip (s : List Nat) : List Nat := rstrip (lstrip s)

/-- Python `(x or "")` applied to an optional string. -/
def pyOrEmpty : Option (List Nat) → List Nat
  | none => []
  | some s => s

/-- Boolean test that the first list is a prefix of the second. -/
def ipo : List Nat → List Nat → Bool
  | [], _ => true
  | _ :: _, [] => false
  | a :: as, b :: bs => a == b && ipo as bs

/-- Boolean test that `p` occurs as a contiguous subsequence of the text. -/
def occursIn (p : List Nat) : List Nat → Bool
  | [] => ipo p []
  | c :: cs => ipo p (c :: cs) || occursIn p cs

/-- Fuelled engine for Python `str.replace(pat, rep)` with the nonempty
pattern `p0 :: ps`: scans left to right, replacing non-overlapping
occurrences and resuming after the inserted replacement.  Each step
consumes at least one character, so fuel `s.length` is always enough. -/
def replaceAllF (p0 : Nat) (ps r : List Nat) : Nat → List Nat → List Nat
  | 0, s => s
  | _ + 1, [] => []
  | fuel + 1, c :: cs =>
    if ipo (p0 :: ps) (c :: cs) then
      r ++ replaceAllF p0 ps r fuel (cs.drop ps.length)
    else
      c :: replaceAllF p0 ps r fuel cs

/-- Python `s.replace(p0 :: ps, r)` for a nonempty pattern. -/
def replaceAll (p0 : Nat) (ps r s : List Nat) : List Nat :=
  replaceAllF p0 ps r s.length s

/-! ### Korean code points and literals used by the normalizers -/

def cIl : Nat := 51068
def cRing : Nat := 47553
def cMil : Nat := 48128
def cGong : Nat := 44277
def cYu : Nat := 50976
def cAm : Nat := 50516
def cAp : Nat := 50517
def cSan : Nat := 49328
def cEom : Nat := 50628
def cYeop : Nat := 50685
def cEop : Nat := 50629

def strIl : List Nat := [51068, 47553]
def strMil : List Nat := [48128, 47553]
def strGongYuAm : List Nat := [44277, 50976, 50516]
def strGongYuAp : List Nat := [44277, 50976, 50517]
def strSanEom : List Nat := [49328, 50628]
def strSanYeop : List Nat := [49328, 50685]
def strSanEop : List Nat := [49328, 50629]

/-! ### Text Normalizer (`_normalize_cert_name`, `_normalize_certificate_ocr_text`) -/

/-- Stage 1 of the replacement dict: `"일링" -> "밀링"`. -/
def ncn1 (s : List Nat) : List Nat := replaceAll cIl [cRing] strMil s

/-- Stage 2: `"공유암" -> "공유압"`. -/
def ncn2 (s : List Nat) : List Nat := replaceAll cGong [cYu, cAm] strGongYuAp s

/-- Stage 3: `"산엄" -> "산업"`. -/
def ncn3 (s : List Nat) : List Nat := replaceAll cSan [cEom] strSanEop s

/-- Stage 4: `"산엽" -> "산업"`. -/
def ncn4 (s : List Nat) : List Nat := replaceAll cSan [cYeop] strSanEop s

/-- `_normalize_cert_name` (src/ai/main.py:39-52): strip, return early when
empty, then apply the four literal replacements in dict insertion order. -/
def normalize_cert_name (name : Option (List Nat)) : List Nat :=
  if pystrip (pyOrEmpty name) = [] then pystrip (pyOrEmpty name)
  else ncn4 (ncn3 (ncn2 (ncn1 (pystrip (pyOrEmpty name)))))

/-- Consume a literal off the front of a string, returning the remainder. -/
def eatLit : List Nat → List Nat → Option (List Nat)
  | [], s => some s
  | _ :: _, [] => none
  | l :: ls, c :: cs => if c == l then eatLit ls cs else none

def litComputerEung : List Nat := [52980, 54504, 53552, 51025, 50857]
def litGineungsa : List Nat := [44592, 45733, 49324]
def litGongYu : List Nat := [44277, 50976]
def repComputerMilling : List Nat := [52980, 54504, 53552, 51025, 50857, 48128, 47553, 44592, 45733, 49324]
def repGongYuApGineungsa : List Nat := [44277, 50976, 50517, 44592, 45733, 49324]

/-- One-position match of the regex `컴퓨터응용\s*일링\s*기능사`.  The greedy
`\s*` is deterministic here because each following literal starts with a
non-space character. -/
def tryPat1 (s : List Nat) : Option (List Nat) :=
  (eatLit litComputerEung s).bind fun t1 =>
    (eatLit strIl (t1.dropWhile pyIsSpace)).bind fun t2 =>
      eatLit litGineungsa (t2.dropWhile pyIsSpace)

/-- One-position match of the regex `공유\s*암\s*기능사`. -/
def tryPat2 (s : List Nat) : Option (List Nat) :=
  (eatLit litGongYu s).bind fun t1 =>
    (eatLit [cAm] (t1.dropWhile pyIsSpace)).bind fun t2 =>
      eatLit litGineungsa (t2.dropWhile pyIsSpace)

/-- Fuelled engine for `re.sub` with a fixed-replacement pattern: leftmost
non-overlapping matches, scanning resumes after each replacement. -/
def reSubF (tryPat : List Nat → Option (List Nat)) (rep : List Nat) :
    Nat → List Nat → List Nat
  | 0, s => s
  | _ + 1, [] => []
  | fuel + 1, c :: cs =>
    match tryPat (c :: cs) with
    | some rest => rep ++ reSubF tryPat rep fuel rest
    | none => c :: reSubF tryPat rep fuel cs

/-- `_normalize_certificate_ocr_text` (src/ai/main.py:55-66): return early
when empty, then the two conservative regex substitutions. -/
def normalize_certificate_ocr_text (text : Option (List Nat)) : List Nat :=
  let s := pyOrEmpty text
  if s = [] then s
  else
    let s1 := reSubF tryPat1 repComputerMilling s.length s
    reSubF tryPat2 repGongYuApGineungsa s1.length s1

/-! ### OCR scoring (`_score_text`) -/

/-- A Python character as seen by `_score_text`: its code point together
with the two Unicode attributes the code consults. -/
structure PChar where
  code : Nat
  alnum : Bool
  space : Bool
deriving DecidableEq

/-- The range check `"가" <= ch <= "힣"`. -/
def isHangulSyl (c : PChar) : Bool :=
  decide (44032 ≤ c.code) && decide (c.code ≤ 55203)

/-- Per-character contribution of `_score_text` (src/ai/main.py:440-454). -/
def charScore (c : PChar) : Nat :=
  if isHangulSyl c then 3
  else if c.alnum then 2
  else if c.space then 0
  else 1

/-- `_score_text`: 0 on the empty text, otherwise the accumulated loop. -/
def score_text (t : List PChar) : Nat :=
  if t = [] then 0 else t.foldl (fun acc c => acc + charScore c) 0

def hangulCount (t : List PChar) : Nat :=
  (t.filter (fun c => isHangulSyl c)).length

def otherAlnumCount (t : List PChar) : Nat :=
  (t.filter (fun c => !isHangulSyl c && c.alnum)).length

def whitespaceCount (t : List PChar) : Nat :=
  (t.filter (fun c => c.space)).length

def otherCount (t : List PChar) : Nat :=
  (t.filter (fun c => !isHangulSyl c && !c.alnum && !c.space)).length

/-! ### OCR variant selection loop (src/ai/main.py:485-527) -/

/-- Python `str.strip()` on scored text (leading part). -/
def plstrip (t : List PChar) : List PChar := t.dropWhile (fun c => c.space)

/-- Python `str.strip()` on scored text. -/
def pstrip (t : List PChar) : List PChar :=
  ((plstrip t).reverse.dropWhile (fun c => c.space)).reverse

/-- One OCR candidate: the variant name and the text the engine returned
for that variant. -/
structure OcrCandidate where
  name : List Nat
  text : List PChar
deriving DecidableEq

def strRaw : List Nat := [114, 97, 119]
def strLight : List Nat := [108, 105, 103, 104, 116]
def strBinarized : List Nat := [98, 105, 110, 97, 114, 105, 122, 101, 100]

/-- The `candidate_meta[name] = {"score": s, "length": len(t.strip())}`
record for one candidate. -/
def candMetaEntry (c : OcrCandidate) : List Nat × Nat × Nat :=
  (c.name, score_text c.text, (pstrip c.text).length)

/-- One iteration of the selection loop: state is the current
`(best_name, best_text, best_score)` plus the accumulated metadata.  The
metadata entry is recorded before the comparison, so it appears in both
branches. -/
def selStep (acc : (List Nat × List PChar × Int) × List (List Nat × Nat × Nat))
    (c : OcrCandidate) : (List Nat × List PChar × Int) × List (List Nat × Nat × Nat) :=
  if (score_text c.text : Int) > acc.1.2.2 then
    ((c.name, c.text, (score_text c.text : Int)), acc.2 ++ [candMetaEntry c])
  else (acc.1, acc.2 ++ [candMetaEntry c])

/-- The whole loop, started from `best_name = "raw"`, `best_text = ""`,
`best_score = -1` and an empty metadata record. -/
def runSelection (cands : List OcrCandidate) :
    (List Nat × List PChar × Int) × List (List Nat × Nat × Nat) :=
  cands.foldl selStep ((strRaw, [], -1), [])

/-- The `selected_variant` recorded in the response metadata. -/
def ocrSelectedName (cands : List OcrCandidate) : List Nat :=
  (runSelection cands).1.1

/-- The response `text` field: the winning candidate's text, stripped. -/
def ocrSelectedText (cands : List OcrCandidate) : List PChar :=
  pstrip (runSelection cands).1.2.1

/-- The `candidates` diagnostic record. -/
def ocrCandidateMeta (cands : List OcrCandidate) : List (List Nat × Nat × Nat) :=
  (runSelection cands).2

/-! ### OCR request prelude (src/ai/main.py:428-438) -/

inductive OcrClientError where
  | unsupportedMedia
  | emptyInput
  | invalidImage
deriving DecidableEq

def strImageSlash : List Nat := [105, 109, 97, 103, 101, 47]

/-- The check `(file.content_type or "").startswith("image/")`. -/
def startsWithImage (ct : Option (List Nat)) : Bool :=
  ipo strImageSlash (pyOrEmpty ct)

/-- The validation prelude of `_ocr_extract_text_from_image`: content-type
check, empty-buffer check, then `Image.open` (modelled by the black-box
`decode`, `none` meaning the PIL call raised). -/
def ocr_prelude {Img : Type} (decode : List Nat → Option Img)
    (ct : Option (List Nat)) (bytes : List Nat) : Except (Nat × OcrClientError) Img :=
  if startsWithImage ct = false then .error (400, .unsupportedMedia)
  else if bytes = [] then .error (400, .emptyInput)
  else
    match decode bytes with
    | some img => .ok img
    | none => .error (400, .invalidImage)

/-! ### Variant building (src/ai/main.py:456-480) -/

/-- Variant construction: EXIF transpose is best effort (`except` falls
back to the unrotated image); the light and binarized pipelines are each a
`try` block whose failure (`none`) skips that variant.  The raw variant is
appended unconditionally. -/
def buildVariants {Img : Type} (exifT lightPipe binPipe : Img → Option Img)
    (image : Img) : List (List Nat × Img) :=
  let base := (exifT image).getD image
  let v1 := [(strRaw, base)]
  let v2 :=
    match lightPipe base with
    | some v => v1 ++ [(strLight, v)]
    | none => v1
  match binPipe base with
  | some v => v2 ++ [(strBinarized, v)]
  | none => v2

/-! ### Tesseract auto-discovery (src/ai/main.py:91-111, 502-511) -/

/-- Python truthiness of an optional string: `None` and `""` are falsy. -/
def optTruthy : Option (List Nat) → Option (List Nat)
  | none => none
  | some v => if v = [] then none else some v

def strTessDir : List Nat := [84, 101, 115, 115, 101, 114, 97, 99, 116, 45, 79, 67, 82]
def strTessExe : List Nat := [116, 101, 115, 115, 101, 114, 97, 99, 116, 46, 101, 120, 101]
def strPF : List Nat := [67, 58, 92, 80, 114, 111, 103, 114, 97, 109, 32, 70, 105, 108, 101, 115]
def strPFx86 : List Nat := [67, 58, 92, 80, 114, 111, 103, 114, 97, 109, 32, 70, 105, 108, 101, 115, 32, 40, 120, 56, 54, 41]

/-- `str(Path(root) / "Tesseract-OCR" / "tesseract.exe")`, with the path
separator abstracted as `sep`. -/
def tessJoin (sep : Nat) (root : List Nat) : List Nat :=
  root ++ [sep] ++ strTessDir ++ [sep] ++ strTessExe

/-- The candidate install paths: roots are `ProgramFiles`,
`ProgramFiles(x86)` and the two hard-coded directories, falsy roots
skipped. -/
def tessCandidates (sep : Nat) (pf pfx86 : Option (List Nat)) : List (List Nat) :=
  [pf, pfx86, some strPF, some strPFx86].filterMap fun o =>
    match o with
    | some root => if root = [] then none else some (tessJoin sep root)
    | none => none

/-- The `for p in candidates: if p.exists(): return str(p)` loop. -/
def firstExisting (ex : List Nat → Bool) : List (List Nat) → Option (List Nat)
  | [] => none
  | c :: cs => if ex c then some c else firstExisting ex cs

/-- `_detect_tesseract_cmd`: configured `TESSERACT_CMD`, then
`shutil.which` (the process PATH), then the common install directories. -/
def detect_tesseract_cmd (tessCmd which pf pfx86 : Option (List Nat)) (sep : Nat)
    (ex : List Nat → Bool) : Option (List Nat) :=
  match optTruthy tessCmd with
  | some t => some t
  | none =>
    match optTruthy which with
    | some w => some w
    | none => firstExisting ex (tessCandidates sep pf pfx86)

def strMsgFixed : List Nat := [84, 101, 115, 115, 101, 114, 97, 99, 116, 32, 101, 120, 101, 99, 117, 116, 97, 98, 108, 101, 32, 110, 111, 116, 32, 102, 111, 117, 110, 100, 46, 32, 73, 110, 115, 116, 97, 108, 108, 32, 84, 101, 115, 115, 101, 114, 97, 99, 116, 32, 79, 67, 82, 32, 97, 110, 100, 47, 111, 114, 32, 115, 101, 116, 32, 84, 69, 83, 83, 69, 82, 65, 67, 84, 95, 67, 77, 68, 32, 101, 110, 118, 32, 118, 97, 114, 46, 32, 69, 120, 97, 109, 112, 108, 101, 58, 32, 84, 69, 83, 83, 69, 82, 65, 67, 84, 95, 67, 77, 68, 61, 67, 58, 92, 80, 114, 111, 103, 114, 97, 109, 32, 70, 105, 108, 101, 115, 92, 84, 101, 115, 115, 101, 114, 97, 99, 116, 45, 79, 67, 82, 92, 116, 101, 115, 115, 101, 114, 97, 99, 116, 46, 101, 120, 101, 46, 32, 68, 101, 116, 101, 99, 116, 101, 100, 58, 32]
def strTESSERACT_CMD : List Nat := [84, 69, 83, 83, 69, 82, 65, 67, 84, 95, 67, 77, 68]
def strExamplePath : List Nat := [67, 58, 92, 80, 114, 111, 103, 114, 97, 109, 32, 70, 105, 108, 101, 115, 92, 84, 101, 115, 115, 101, 114, 97, 99, 116, 45, 79, 67, 82, 92, 116, 101, 115, 115, 101, 114, 97, 99, 116, 46, 101, 120, 101]
def strNone : List Nat := [78, 111, 110, 101]

/-- The detail string of the `EngineUnavailable` HTTP 500 response
(src/ai/main.py:504-511): a fixed installation-guidance text followed by
the repr of the re-run auto-discovery result. -/
def engineUnavailableDetail (detectedRepr : List Nat) : List Nat :=
  strMsgFixed ++ detectedRepr

/-- The full `(status_code, detail)` of the `EngineUnavailable` response. -/
def engineUnavailableResponse (detectedRepr : List Nat) : Nat × List Nat :=
  (500, engineUnavailableDetail detectedRepr)

/-! ### JSON extraction (src/ai/main.py:344-361, 858-861) -/

/-- Outcome of a `json.loads` call (black box): it raised, it returned a
non-dict value, or it returned a dict `d`. -/
inductive LoadResult (δ : Type) where
  | failed
  | nonObj
  | objRes (d : δ)
deriving DecidableEq

inductive JsonExtractError where
  | noJsonFound
  | notAnObject
  | decodeFailed
deriving DecidableEq

/-- The text matched by `re.search(r"\{[\s\S]*\}", s)`: the span from the
first `{` to the last `}`, when the last `}` lies beyond the first `{`
(leftmost match start, greedy extension). -/
def braceSpan (s : List Nat) : Option (List Nat) :=
  match s.findIdx? (fun c => c == 123), s.reverse.findIdx? (fun c => c == 125) with
  | some i, some jr =>
    let j := s.length - 1 - jr
    if i < j then some ((s.drop i).take (j - i + 1)) else none
  | _, _ => none

/-- The fallback branch of `_extract_first_json_object`: parse the
first-`{`-to-last-`}` span; a parse failure there propagates as an error
(an uncaught exception in the source), a non-dict value raises the
"JSON is not an object" ValueError. -/
def braceFallback {δ : Type} (loads : List Nat → LoadResult δ)
    (s : List Nat) : Except JsonExtractError δ :=
  match braceSpan s with
  | none => .error .noJsonFound
  | some sub =>
    match loads sub with
    | .objRes d => .ok d
    | .nonObj => .error .notAnObject
    | .failed => .error .decodeFailed

/-- `_extract_first_json_object`: strip, attempt a direct parse returning
only dicts, and otherwise (parse failure or non-dict value) run the
brace-span fallback. -/
def extract_first_json_object {δ : Type} (loads : List Nat → LoadResult δ)
    (text : Option (List Nat)) : Except JsonExtractError δ :=
  match loads (pystrip (pyOrEmpty text)) with
  | .objRes d => .ok d
  | .nonObj => braceFallback loads (pystrip (pyOrEmpty text))
  | .failed => braceFallback loads (pystrip (pyOrEmpty text))

/-- The `try/except` in the teaching-profile endpoints
(src/ai/main.py:858-861): any extraction failure becomes an HTTP 502 whose
detail carries the raw model text verbatim. -/
def teaching_profile_json_step {δ : Type} (loads : List Nat → LoadResult δ)
    (raw_text : List Nat) : Except (Nat × List Nat) δ :=
  match extract_first_json_object loads (some raw_text) with
  | .ok d => .ok d
  | .error _ => .error (502, raw_text)

/-! ### Certificate subject filling (src/ai/main.py:28-36, 990-997) -/

def CERT_SUBJECT_MAP : List (List Nat × List (List Nat)) := [
  ([51204, 44592, 44592, 45733, 49324], [[51204, 44592, 51060, 47200], [51204, 44592, 44592, 44592], [51204, 44592, 49444, 48708]]),
  ([49373, 49328, 51088, 46041, 54868, 44592, 45733, 49324], [[44592, 44228, 50836, 49548], [44277, 50517, 47, 50976, 50517], [51204, 44592, 47, 51204, 51088, 32, 44592, 52488], [80, 76, 67, 32, 44592, 52488], [51088, 46041, 54868, 32, 49892, 47924]]),
  ([51204, 51088, 44592, 44592, 44592, 45733, 49324], [[51204, 51088, 54924, 47196, 32, 44592, 52488], [46356, 51648, 53560, 47, 47560, 51060, 53356, 47196, 52968, 53944, 47204, 47084, 32, 44592, 52488], [52769, 51221, 47, 44228, 52769], [51204, 51088, 44592, 44592, 32, 49688, 47532]]),
  ([52980, 54504, 53552, 51025, 50857, 48128, 47553, 44592, 45733, 49324], [[46020, 47732, 32, 54644, 46021], [44032, 44277, 32, 44277, 51221], [44277, 44396, 47, 51208, 49325], [52769, 51221], [50504, 51204]]),
  ([51221, 48372, 52376, 47532, 44592, 45733, 49324], [[52980, 54504, 53552, 32, 44592, 52488], [49548, 54532, 53944, 50920, 50612, 32, 44592, 52488], [45936, 51060, 53552, 47, 68, 66, 32, 44592, 52488], [45348, 53944, 50892, 53356, 32, 44592, 52488], [47928, 51228, 54400, 51060]]),
  ([44277, 50976, 50517, 44592, 45733, 49324], [[44277, 50517, 32, 44592, 52488], [50976, 50517, 32, 44592, 52488], [54924, 47196, 32, 54644, 46021], [44592, 44592, 47, 48184, 48652], [50504, 51204]])
]

/-- Python `s.replace(" ", "")`: removes the ASCII space character only. -/
def removeSpaces (s : List Nat) : List Nat := replaceAll 32 [] [] s

/-- The `for known, subjects in _CERT_SUBJECT_MAP.items()` loop body: fill
`subjects` from the taxonomy when the compacted normalized name matches a
compacted canonical name and the current subject list is empty. -/
def fillLoop (norm : List Nat) (subjects : List (List Nat)) : List (List Nat) :=
  CERT_SUBJECT_MAP.foldl
    (fun subs kv => if norm = removeSpaces kv.1 ∧ subs = [] then kv.2 else subs)
    subjects

/-- The whole per-candidate treatment (src/ai/main.py:993-997):
`norm = _normalize_cert_name(c.name).replace(" ", "")` then the map loop. -/
def applySubjectFill (name : List Nat) (subjects : List (List Nat)) : List (List Nat) :=
  fillLoop (removeSpaces (normalize_cert_name (some name))) subjects

/-- Compaction as the specification words it: removal of ALL whitespace
characters (this is the spec-side definition used to state claim C9; the
source uses `removeSpaces`, which removes only U+0020). -/
def specCompactAllWhitespace (s : List Nat) : List Nat :=
  s.filter (fun c => !pyIsSpace c)

/-! ### Concrete data used by witnesses and counterexamples -/

def elecKey : List Nat := [51204, 44592, 44592, 45733, 49324]
def elecSubjects : List (List Nat) :=
  [[51204, 44592, 51060, 47200], [51204, 44592, 44592, 44592], [51204, 44592, 49444, 48708]]
def c9TabName : List Nat := [51204, 44592, 9, 44592, 45733, 49324]
def c9SpacedName : List Nat := [51204, 32, 44592, 32, 44592, 45733, 49324]

def c8Text : List Nat := [91, 123, 34, 97, 34, 58, 49, 125, 93]
def c8Inner : List Nat := [123, 34, 97, 34, 58, 49, 125]

/-- A `json.loads` model agreeing with the real parser on the two strings
it is queried at: the full text `[{"a":1}]` is valid JSON but not an
object, and the embedded `{"a":1}` is an object. -/
def c8Loads : List Nat → LoadResult Nat := fun s =>
  if s = c8Inner then .objRes 1 else if s = c8Text then .nonObj else .failed

def c10Text : List Nat := [120, 123, 125, 121]

/-- A `json.loads` model for the C10 witness: only the exact string `{}`
parses, to an object. -/
def c10Loads : List Nat → LoadResult Nat := fun s =>
  if s = [123, 125] then .objRes 7 else .failed

def c1Sample : List PChar :=
  [⟨44032, true, false⟩, ⟨97, true, false⟩, ⟨32, false, true⟩, ⟨46, false, false⟩]

def c2Cands : List OcrCandidate :=
  [⟨strRaw, [⟨46, false, false⟩]⟩, ⟨strLight, [⟨44032, true, false⟩]⟩]

def c5e : Nat → Option Nat := fun _ => none
def c5l : Nat → Option Nat := fun _ => none
def c5b : Nat → Option Nat := fun _ => some 9

/-! ## Basic lemmas about the string primitives -/

theorem ipo_nil_left (s : List Nat) : ipo [] s = true := rfl

theorem ipo_cons_cons (a b : Nat) (as bs : List Nat) :
    ipo (a :: as) (b :: bs) = ((a == b) && ipo as bs) := rfl

theorem ipo_nonempty_nil (a : Nat) (as : List Nat) : ipo (a :: as) [] = false := rfl

theorem ipo_length_le {p s : List Nat} (h : ipo p s = true) : p.length ≤ s.length := by
  induction p generalizing s with
  | nil => simp
  | cons a as ih =>
    cases s with
    | nil => rw [ipo_nonempty_nil] at h; exact absurd h (by simp)
    | cons b bs =>
      rw [ipo_cons_cons, Bool.and_eq_true] at h
      have := ih h.2
      simp only [List.length_cons]
      omega

theorem ipo_eq_of_length {p s : List Nat} (h : ipo p s = true)
    (hl : p.length = s.length) : p = s := by
  induction p generalizing s with
  | nil => cases s with
    | nil => rfl
    | cons b bs => simp at hl
  | cons a as ih =>
    cases s with
    | nil => simp at hl
    | cons b bs =>
      rw [ipo_cons_cons, Bool.and_eq_true, beq_iff_eq] at h
      simp only [List.length_cons, Nat.add_right_cancel_iff] at hl
      rw [h.1, ih h.2 hl]

theorem ipo_refl (p : List Nat) : ipo p p = true := by
  induction p with
  | nil => rfl
  | cons a as ih => rw [ipo_cons_cons, ih]; simp

theorem ipo_append_elim {q a b : List Nat} (h : ipo q (a ++ b) = true) :
    ipo q a = true ∨ (ipo a q = true ∧ ipo (q.drop a.length) b = true) := by
  induction a generalizing q with
  | nil => right; exact ⟨ipo_nil_left q, by simpa using h⟩
  | cons x xs ih =>
    cases q with
    | nil => left; exact ipo_nil_left _
    | cons y ys =>
      rw [List.cons_append, ipo_cons_cons, Bool.and_eq_true, beq_iff_eq] at h
      obtain ⟨rfl, h2⟩ := h
      rcases ih h2 with h3 | ⟨h3, h4⟩
      · left; rw [ipo_cons_cons, h3]; simp
      · right
        refine ⟨by rw [ipo_cons_cons, h3]; simp, ?_⟩
        simpa using h4

theorem ipo_append_left {p s : List Nat} (b : List Nat) (h : ipo p s = true) :
    ipo p (s ++ b) = true := by
  induction p generalizing s with
  | nil => exact ipo_nil_left _
  | cons x xs ih =>
    cases s with
    | nil => rw [ipo_nonempty_nil] at h; exact absurd h (by simp)
    | cons y ys =>
      rw [ipo_cons_cons, Bool.and_eq_true] at h
      rw [List.cons_append, ipo_cons_cons, h.1, ih h.2]
      rfl

theorem occursIn_cons (p : List Nat) (c : Nat) (cs : List Nat) :
    occursIn p (c :: cs) = (ipo p (c :: cs) || occursIn p cs) := rfl

theorem occursIn_of_ipo {p s : List Nat} (h : ipo p s = true) : occursIn p s = true := by
  cases s with
  | nil => simpa [occursIn] using h
  | cons c cs => rw [occursIn_cons, h]; simp

theorem occursIn_tail {p : List Nat} (c : Nat) (cs : List Nat)
    (h : occursIn p cs = true) : occursIn p (c :: cs) = true := by
  rw [occursIn_cons, h]; simp

theorem occursIn_drop {p s : List Nat} (k : Nat)
    (h : occursIn p (s.drop k) = true) : occursIn p s = true := by
  induction k generalizing s with
  | zero => simpa using h
  | succ k ih =>
    cases s with
    | nil => simpa using h
    | cons c cs => exact occursIn_tail c cs (ih (by simpa using h))

theorem occursIn_append_left {p a : List Nat} (b : List Nat)
    (h : occursIn p a = true) : occursIn p (a ++ b) = true := by
  induction a with
  | nil =>
    have hp : p = [] := List.length_eq_zero.mp (Nat.le_zero.mp (ipo_length_le h))
    subst hp
    exact occursIn_of_ipo (ipo_nil_left b)
  | cons x xs ih =>
    rw [occursIn_cons, Bool.or_eq_true] at h
    rcases h with h1 | h2
    · exact occursIn_of_ipo (by simpa using ipo_append_left b h1)
    · exact occursIn_tail x _ (ih h2)

theorem occursIn_append_elim {p a b : List Nat} (h : occursIn p (a ++ b) = true) :
    (∃ k, k < a.length ∧ ipo p (a.drop k ++ b) = true) ∨ occursIn p b = true := by
  induction a with
  | nil => right; simpa using h
  | cons x xs ih =>
    rw [List.cons_append, occursIn_cons, Bool.or_eq_true] at h
    rcases h with h1 | h2
    · left; exact ⟨0, by simp, by simpa using h1⟩
    · rcases ih h2 with ⟨k, hk, hi⟩ | h3
      · left
        refine ⟨k + 1, by simpa using hk, by simpa using hi⟩
      · right; exact h3

/-! ## Claim C1: the OCR variant score formula -/

theorem score_text_eq_sum (t : List PChar) :
    score_text t = (t.map charScore).sum := by
  have hfold : ∀ (l : List PChar) (a : Nat),
      l.foldl (fun acc c => acc + charScore c) a = a + (l.map charScore).sum := by
    intro l
    induction l with
    | nil => intro a; simp
    | cons c cs ih =>
      intro a
      simp only [List.foldl_cons, List.map_cons, List.sum_cons, ih]
      omega
  cases t with
  | nil => rfl
  | cons c cs =>
    rw [score_text, if_neg (by simp), hfold]
    omega

theorem score_decomp (t : List PChar)
    (hv : ∀ c ∈ t, (c.space = true → c.alnum = false) ∧
      (isHangulSyl c = true → c.space = false)) :
    score_text t = 3 * hangulCount t + 2 * otherAlnumCount t + otherCount t ∧
    hangulCount t + otherAlnumCount t + whitespaceCount t + otherCount t = t.length := by
  rw [score_text_eq_sum]
  induction t with
  | nil => simp [hangulCount, otherAlnumCount, whitespaceCount, otherCount]
  | cons c cs ih =>
    have hc := hv c (by simp)
    have hcs := ih (fun d hd => hv d (by simp [hd]))
    simp only [List.map_cons, List.sum_cons, hangulCount, otherAlnumCount,
      whitespaceCount, otherCount, List.filter_cons, List.length_cons] at hcs ⊢
    by_cases h1 : isHangulSyl c = true
    · have h3 : c.space = false := hc.2 h1
      simp [charScore, h1, h3]
      constructor <;> omega
    · have h1' : isHangulSyl c = false := by simpa using h1
      by_cases h2 : c.alnum = true
      · have h3 : c.space = false := by
          by_contra hsp
          have hsp' : c.space = true := by simpa using hsp
          rw [hc.1 hsp'] at h2
          exact absurd h2 (by simp)
        simp [charScore, h1', h2, h3]
        constructor <;> omega
      · have h2' : c.alnum = false := by simpa using h2
        by_cases h3 : c.space = true
        · simp [charScore, h1', h2', h3]
          constructor <;> omega
        · have h3' : c.space = false := by simpa using h3
          simp [charScore, h1', h2', h3']
          constructor <;> omega

/-- Claim C1: for every text, `_score_text` returns exactly 3 per Hangul
syllable (U+AC00..U+D7A3), 2 per other alphanumeric, 0 per whitespace and
1 per remaining character, i.e. `3 * N + 2 * M + (len - N - M - W)`, and
the empty text scores 0.  The hypothesis states the two Unicode facts the
formula relies on: no whitespace character is alphanumeric, and no Hangul
syllable is whitespace. -/
theorem c1_score_formula (t : List PChar)
    (hv : ∀ c ∈ t, (c.space = true → c.alnum = false) ∧
      (isHangulSyl c = true → c.space = false)) :
    score_text t = 3 * hangulCount t + 2 * otherAlnumCount t
      + (t.length - hangulCount t - otherAlnumCount t - whitespaceCount t) ∧
    score_text [] = 0 := by
  obtain ⟨h1, h2⟩ := score_decomp t hv
  exact ⟨by omega, rfl⟩

/-- Witness for C1 at the concrete text `"가a ."` (one Hangul syllable,
one Latin letter, one space, one period). -/
theorem c1_score_formula_witness :
    (∀ c ∈ c1Sample, (c.space = true → c.alnum = false) ∧
      (isHangulSyl c = true → c.space = false)) ∧
    (score_text c1Sample = 3 * hangulCount c1Sample + 2 * otherAlnumCount c1Sample
      + (c1Sample.length - hangulCount c1Sample - otherAlnumCount c1Sample
        - whitespaceCount c1Sample) ∧
     score_text [] = 0) :=
  ⟨by decide, c1_score_formula c1Sample (by decide)⟩

/-! ## Claim C3: OCR input validation errors -/

/-- Claim C3: for an image-typed upload, the OCR extraction fails with the
`EmptyInput` 400 error exactly when the byte buffer is empty, fails with
the `InvalidImage` 400 error when the nonempty bytes cannot be decoded,
and raises neither error (proceeding with the decoded image) otherwise. -/
theorem c3_error_classification {Img : Type} (decode : List Nat → Option Img)
    (ct : Option (List Nat)) (bytes : List Nat)
    (hct : startsWithImage ct = true) :
    (bytes = [] → ocr_prelude decode ct bytes = .error (400, .emptyInput)) ∧
    (bytes ≠ [] → decode bytes = none →
      ocr_prelude decode ct bytes = .error (400, .invalidImage)) ∧
    (∀ img, bytes ≠ [] → decode bytes = some img →
      ocr_prelude decode ct bytes = .ok img) := by
  refine ⟨?_, ?_, ?_⟩
  · intro hb
    simp [ocr_prelude, hct, hb]
  · intro hb hd
    simp [ocr_prelude, hct, hb, hd]
  · intro img hb hd
    simp [ocr_prelude, hct, hb, hd]

/-- Witness for C3: an image upload with an empty byte buffer yields the
`EmptyInput` 400 error. -/
theorem c3_error_classification_witness :
    startsWithImage (some strImageSlash) = true ∧
    ocr_prelude (fun _ : List Nat => (none : Option Unit)) (some strImageSlash) []
      = .error (400, .emptyInput) :=
  ⟨by decide,
   (c3_error_classification (fun _ : List Nat => (none : Option Unit))
     (some strImageSlash) [] (by decide)).1 rfl⟩

/-! ## Claim C5: variant-building failures are recovered locally -/

/-- Claim C5: whatever the outcome of the fallible image transforms, the
candidate list is never empty; its first element is always the raw
variant over the best-effort EXIF-corrected base image (falling back to
the unrotated image when the correction fails); a preprocessing pipeline
that throws merely omits its variant, while a successful one contributes
exactly its transformed image. -/
theorem c5_variant_recovery {Img : Type} (exifT lightPipe binPipe : Img → Option Img)
    (image : Img) :
    (buildVariants exifT lightPipe binPipe image).head? =
      some (strRaw, (exifT image).getD image) ∧
    buildVariants exifT lightPipe binPipe image ≠ [] ∧
    (∀ v, lightPipe ((exifT image).getD image) = some v →
      (strLight, v) ∈ buildVariants exifT lightPipe binPipe image) ∧
    (lightPipe ((exifT image).getD image) = none →
      ∀ p ∈ buildVariants exifT lightPipe binPipe image, p.1 ≠ strLight) ∧
    (∀ v, binPipe ((exifT image).getD image) = some v →
      (strBinarized, v) ∈ buildVariants exifT lightPipe binPipe image) ∧
    (binPipe ((exifT image).getD image) = none →
      ∀ p ∈ buildVariants exifT lightPipe binPipe image, p.1 ≠ strBinarized) := by
  cases hl : lightPipe ((exifT image).getD image) <;>
    cases hb : binPipe ((exifT image).getD image) <;>
      refine ⟨?_, ?_, ?_, ?_, ?_, ?_⟩ <;>
        simp only [buildVariants, hl, hb] <;>
          simp_all <;> decide

/-- Witness for C5: with a failing EXIF transform, a failing light
pipeline and a succeeding binarize pipeline, the raw variant heads the
list, no light variant appears, and the binarized variant is present. -/
theorem c5_variant_recovery_witness :
    (buildVariants c5e c5l c5b 0).head? = some (strRaw, 0) ∧
    (∀ p ∈ buildVariants c5e c5l c5b 0, p.1 ≠ strLight) ∧
    (strBinarized, 9) ∈ buildVariants c5e c5l c5b 0 :=
  ⟨(c5_variant_recovery c5e c5l c5b 0).1,
   (c5_variant_recovery c5e c5l c5b 0).2.2.2.1 rfl,
   (c5_variant_recovery c5e c5l c5b 0).2.2.2.2.1 9 rfl⟩

/-! ## Claim C7: normalizers on empty and null input -/

/-- Claim C7: the certificate-name normalizer and the certificate-blob
normalizer are total functions (they are Lean functions, so they return
on every input) and return the empty string both on null (`None`) and on
empty input. -/
theorem c7_normalizers_empty :
    normalize_cert_name none = [] ∧
    normalize_cert_name (some []) = [] ∧
    normalize_certificate_ocr_text none = [] ∧
    normalize_certificate_ocr_text (some []) = [] :=
  ⟨rfl, rfl, rfl, rfl⟩

/-! ## Claim C10: permissive JSON extraction -/

/-- Claim C10: whenever the response text does not itself parse as a JSON
object but the substring from its first `{` to its last `}` does,
`_extract_first_json_object` returns that embedded object instead of
raising, so no malformed-output error reaches the caller. -/
theorem c10_permissive_extraction {δ : Type} (loads : List Nat → LoadResult δ)
    (text : Option (List Nat)) (sub : List Nat) (d : δ)
    (h1 : ∀ d0, loads (pystrip (pyOrEmpty text)) ≠ .objRes d0)
    (h2 : braceSpan (pystrip (pyOrEmpty text)) = some sub)
    (h3 : loads sub = .objRes d) :
    extract_first_json_object loads text = .ok d := by
  unfold extract_first_json_object
  cases hls : loads (pystrip (pyOrEmpty text)) with
  | objRes d0 => exact absurd hls (h1 d0)
  | failed => simp only [braceFallback, h2, h3]
  | nonObj => simp only [braceFallback, h2, h3]

/-- Witness for C10 at the text `"x{}y"`: the whole text does not parse,
the brace span `"{}"` parses to an object, and extraction returns it. -/
theorem c10_permissive_extraction_witness :
    (∀ d0 : Nat, c10Loads (pystrip (pyOrEmpty (some c10Text))) ≠ .objRes d0) ∧
    braceSpan (pystrip (pyOrEmpty (some c10Text))) = some [123, 125] ∧
    c10Loads [123, 125] = .objRes 7 ∧
    extract_first_json_object c10Loads (some c10Text) = .ok 7 :=
  ⟨fun d0 h => LoadResult.noConfusion h,
   by decide, rfl,
   c10_permissive_extraction c10Loads (some c10Text) [123, 125] 7
     (fun d0 h => LoadResult.noConfusion h) (by decide) rfl⟩

/-! ## Claim C8: malformed model output handling -/

/-- Claim C8 counterexample: the LLM response `[{"a":1}]` is valid JSON
but not a JSON object, yet the operation does not fail with a 502 — the
fallback extracts the embedded object and a shaped response is returned.
`c8Loads` agrees with the real `json.loads` on the two strings queried. -/
theorem c8_counterexample :
    c8Loads (pystrip c8Text) = LoadResult.nonObj ∧
    teaching_profile_json_step c8Loads c8Text = Except.ok 1 :=
  ⟨rfl, rfl⟩

/-- Claim C8 as amended: the teaching-profile operations fail with an
HTTP 502 whose detail carries the raw model text verbatim exactly when
neither the direct parse nor the first-`{`-to-last-`}` fallback yields a
JSON object; in that case no shaped response is returned. -/
theorem c8_amended {δ : Type} (loads : List Nat → LoadResult δ) (raw : List Nat)
    (h1 : ∀ d, loads (pystrip raw) ≠ .objRes d)
    (h2 : ∀ sub d, braceSpan (pystrip raw) = some sub → loads sub ≠ .objRes d) :
    teaching_profile_json_step loads raw = .error (502, raw) := by
  unfold teaching_profile_json_step extract_first_json_object
  have hpy : pyOrEmpty (some raw) = raw := rfl
  rw [hpy]
  cases hls : loads (pystrip raw) with
  | objRes d => exact absurd hls (h1 d)
  | failed =>
    cases hbs : braceSpan (pystrip raw) with
    | none => simp only [braceFallback, hbs]
    | some sub =>
      cases hsub : loads sub with
      | objRes d => exact absurd hsub (h2 sub d hbs)
      | failed => simp only [braceFallback, hbs, hsub]
      | nonObj => simp only [braceFallback, hbs, hsub]
  | nonObj =>
    cases hbs : braceSpan (pystrip raw) with
    | none => simp only [braceFallback, hbs]
    | some sub =>
      cases hsub : loads sub with
      | objRes d => exact absurd hsub (h2 sub d hbs)
      | failed => simp only [braceFallback, hbs, hsub]
      | nonObj => simp only [braceFallback, hbs, hsub]

/-- Witness for the amended C8: a parser that always fails makes the
operation return the 502 error carrying the raw text `"hi"`. -/
theorem c8_amended_witness :
    (∀ d : Nat, (fun _ : List Nat => (LoadResult.failed : LoadResult Nat))
      (pystrip [104, 105]) ≠ .objRes d) ∧
    teaching_profile_json_step (fun _ : List Nat => (LoadResult.failed : LoadResult Nat))
      [104, 105] = .error (502, [104, 105]) :=
  ⟨fun d h => LoadResult.noConfusion h,
   c8_amended (fun _ => LoadResult.failed) [104, 105]
     (fun d h => LoadResult.noConfusion h)
     (fun sub d _ h => LoadResult.noConfusion h)⟩

/-! ## Claim C9: compacted-name certificate resolution -/

/-- Claim C9 counterexample: the candidate name `"전기<TAB>기능사"` equals
the canonical `"전기기능사"` once ALL whitespace is removed (the claim's
premise), and that canonical name carries a nonempty subject list; but
the code compacts with `replace(" ", "")`, which leaves the tab in place,
so the candidate receives no subjects. -/
theorem c9_counterexample :
    specCompactAllWhitespace (normalize_cert_name (some c9TabName)) =
      specCompactAllWhitespace elecKey ∧
    (elecKey, elecSubjects) ∈ CERT_SUBJECT_MAP ∧
    applySubjectFill c9TabName [] = [] ∧
    elecSubjects ≠ [] := by
  refine ⟨by decide, by decide, by decide, by decide⟩

/-- Claim C9 as amended: whenever the normalized candidate name with all
ASCII space characters removed equals the space-compacted form of a
canonical name of the taxonomy, and the candidate's subject list is
empty, the loop assigns that canonical entry's subject list to the
candidate. -/
theorem c9_amended (name : List Nat) (k : List Nat) (subj : List (List Nat))
    (hmem : (k, subj) ∈ CERT_SUBJECT_MAP)
    (hmatch : removeSpaces (normalize_cert_name (some name)) = removeSpaces k) :
    applySubjectFill name [] = subj := by
  unfold applySubjectFill
  rw [hmatch]
  simp only [CERT_SUBJECT_MAP, List.mem_cons, List.not_mem_nil, or_false,
    Prod.mk.injEq] at hmem
  rcases hmem with ⟨hk, hs⟩ | ⟨hk, hs⟩ | ⟨hk, hs⟩ | ⟨hk, hs⟩ | ⟨hk, hs⟩ | ⟨hk, hs⟩ <;>
    subst hk <;> subst hs <;> decide

/-- Witness for the amended C9: `"전 기 기능사"` (spaces inserted) receives
the subject list of `"전기기능사"`. -/
theorem c9_amended_witness :
    ((elecKey, elecSubjects) ∈ CERT_SUBJECT_MAP ∧
      removeSpaces (normalize_cert_name (some c9SpacedName)) = removeSpaces elecKey) ∧
    applySubjectFill c9SpacedName [] = elecSubjects :=
  ⟨⟨by decide, by decide⟩,
   c9_amended c9SpacedName elecKey elecSubjects (by decide) (by decide)⟩

/-! ## Claim C2: the selection invariant of the variant loop -/

/-- The best-candidate component of one loop iteration. -/
def bestStep (b : List Nat × List PChar × Int) (c : OcrCandidate) :
    List Nat × List PChar × Int :=
  if (score_text c.text : Int) > b.2.2 then (c.name, c.text, (score_text c.text : Int))
  else b

/-- Recursive first-strict-argmax specification of the loop. -/
def selAux (b : OcrCandidate) : List OcrCandidate → OcrCandidate
  | [] => b
  | c :: cs => if score_text c.text > score_text b.text then selAux c cs else selAux b cs

theorem selStep_eq (acc : (List Nat × List PChar × Int) × List (List Nat × Nat × Nat))
    (c : OcrCandidate) :
    selStep acc c = (bestStep acc.1 c, acc.2 ++ [candMetaEntry c]) := by
  unfold selStep bestStep
  split <;> rfl

theorem foldl_selStep_snd (cands : List OcrCandidate) :
    ∀ b m, (List.foldl selStep (b, m) cands).2 = m ++ cands.map candMetaEntry := by
  induction cands with
  | nil => intro b m; simp
  | cons c cs ih =>
    intro b m
    rw [List.foldl_cons, selStep_eq, ih]
    simp

theorem foldl_selStep_fst (cands : List OcrCandidate) :
    ∀ b m, (List.foldl selStep (b, m) cands).1 = List.foldl bestStep b cands := by
  induction cands with
  | nil => intro b m; rfl
  | cons c cs ih =>
    intro b m
    rw [List.foldl_cons, selStep_eq, List.foldl_cons, ih]

theorem selAux_cons (b c : OcrCandidate) (cs : List OcrCandidate) :
    selAux b (c :: cs) =
      if score_text c.text > score_text b.text then selAux c cs else selAux b cs := rfl

theorem bestStep_consistent (b c : OcrCandidate) :
    bestStep (b.name, b.text, (score_text b.text : Int)) c =
      if score_text c.text > score_text b.text
      then (c.name, c.text, (score_text c.text : Int))
      else (b.name, b.text, (score_text b.text : Int)) := by
  unfold bestStep
  rw [show ((b.name, b.text, (score_text b.text : Int)).2.2) = (score_text b.text : Int)
    from rfl]
  by_cases h : score_text c.text > score_text b.text
  · rw [if_pos h, if_pos (by exact_mod_cast h)]
  · rw [if_neg h, if_neg (by exact_mod_cast h)]

theorem foldl_bestStep_selAux (cands : List OcrCandidate) :
    ∀ b : OcrCandidate,
      List.foldl bestStep (b.name, b.text, (score_text b.text : Int)) cands =
        ((selAux b cands).name, (selAux b cands).text,
          (score_text (selAux b cands).text : Int)) := by
  induction cands with
  | nil => intro b; rfl
  | cons c cs ih =>
    intro b
    rw [List.foldl_cons, selAux_cons, bestStep_consistent]
    by_cases h : score_text c.text > score_text b.text
    · rw [if_pos h, if_pos h, ih c]
    · rw [if_neg h, if_neg h, ih b]

theorem selAux_spec (l : List OcrCandidate) :
    ∀ b : OcrCandidate, ∃ i, ∃ hi : i < (b :: l).length,
      selAux b l = (b :: l).get ⟨i, hi⟩ ∧
      (∀ j, ∀ hj : j < (b :: l).length,
        score_text ((b :: l).get ⟨j, hj⟩).text ≤ score_text (selAux b l).text) ∧
      (∀ j, ∀ hj : j < (b :: l).length, j < i →
        score_text ((b :: l).get ⟨j, hj⟩).text < score_text (selAux b l).text) := by
  induction l with
  | nil =>
    intro b
    refine ⟨0, by simp, rfl, ?_, ?_⟩
    · intro j hj
      have hj0 : j = 0 := by simpa using hj
      subst hj0
      simp [selAux]
    · intro j hj hji
      omega
  | cons c cs ih =>
    intro b
    by_cases h : score_text c.text > score_text b.text
    · obtain ⟨i, hi, heq, hdom, hstrict⟩ := ih c
      rw [selAux_cons, if_pos h]
      refine ⟨i + 1, by simpa using hi, by simpa using heq, ?_, ?_⟩
      · intro j hj
        cases j with
        | zero =>
          exact le_of_lt (lt_of_lt_of_le h (by simpa using hdom 0 (by simp)))
        | succ j =>
          simpa using hdom j (by simpa using hj)
      · intro j hj hji
        cases j with
        | zero =>
          exact lt_of_lt_of_le h (by simpa using hdom 0 (by simp))
        | succ j =>
          exact (by simpa using hstrict j (by simpa using hj) (by omega) :)
    · obtain ⟨i, hi, heq, hdom, hstrict⟩ := ih b
      have hle : score_text c.text ≤ score_text b.text := le_of_not_lt h
      rw [selAux_cons, if_neg h]
      have hble : score_text b.text ≤ score_text (selAux b cs).text := by
        simpa using hdom 0 (by simp)
      cases i with
      | zero =>
        have heq0 : selAux b cs = b := by simpa using heq
        refine ⟨0, by simp, by simpa using heq0, ?_, ?_⟩
        · intro j hj
          cases j with
          | zero => simpa using hble
          | succ j =>
            cases j with
            | zero =>
              simp only [List.get_cons_succ, List.get_cons_zero]
              exact le_trans hle hble
            | succ j =>
              simpa using hdom (j + 1) (by simpa using hj)
        · intro j hj hji
          omega
      | succ k =>
        have hb0 : score_text b.text < score_text (selAux b cs).text := by
          simpa using hstrict 0 (by simp) (by omega)
        refine ⟨k + 2, by simpa using hi, by simpa using heq, ?_, ?_⟩
        · intro j hj
          cases j with
          | zero => simpa using hble
          | succ j =>
            cases j with
            | zero =>
              simp only [List.get_cons_succ, List.get_cons_zero]
              exact le_trans hle hble
            | succ j =>
              simpa using hdom (j + 1) (by simpa using hj)
        · intro j hj hji
          cases j with
          | zero => simpa using hb0
          | succ j =>
            cases j with
            | zero =>
              simp only [List.get_cons_succ, List.get_cons_zero]
              exact lt_of_le_of_lt hle hb0
            | succ j =>
              exact (by simpa using hstrict (j + 1) (by simpa using hj) (by omega) :)

/-- Claim C2: for every nonempty candidate list (in build order raw,
light, binarized), the selected candidate is the first one attaining the
strictly maximal score; the returned text is the selected candidate's
text trimmed; and the diagnostic metadata lists every candidate's score
and trimmed length in order (`ocrSelectedName` being the recorded
`selected_variant`). -/
theorem c2_selection_invariant (cands : List OcrCandidate) (hne : cands ≠ []) :
    ∃ i, ∃ hi : i < cands.length,
      ocrSelectedName cands = ((cands.get ⟨i, hi⟩).name) ∧
      ocrSelectedText cands = pstrip ((cands.get ⟨i, hi⟩).text) ∧
      (∀ j, ∀ hj : j < cands.length,
        score_text ((cands.get ⟨j, hj⟩).text) ≤ score_text ((cands.get ⟨i, hi⟩).text)) ∧
      (∀ j, ∀ hj : j < cands.length, j < i →
        score_text ((cands.get ⟨j, hj⟩).text) < score_text ((cands.get ⟨i, hi⟩).text)) ∧
      ocrCandidateMeta cands = cands.map candMetaEntry := by
  obtain ⟨c, cs, rfl⟩ := List.exists_cons_of_ne_nil hne
  have hfirst : selStep ((strRaw, [], -1), []) c
      = ((c.name, c.text, (score_text c.text : Int)), [candMetaEntry c]) := by
    rw [selStep_eq]
    unfold bestStep
    rw [show (((strRaw, ([] : List PChar), (-1 : Int)), ([] : List (List Nat × Nat × Nat))).1.2.2)
      = (-1 : Int) from rfl]
    rw [if_pos ?hpos]
    case hpos =>
      have h0 : (0 : Int) ≤ (score_text c.text : Int) := Int.natCast_nonneg _
      omega
    rfl
  have hrun : runSelection (c :: cs)
      = List.foldl selStep ((c.name, c.text, (score_text c.text : Int)), [candMetaEntry c]) cs := by
    unfold runSelection
    rw [List.foldl_cons, hfirst]
  have hfst : (runSelection (c :: cs)).1
      = ((selAux c cs).name, (selAux c cs).text, (score_text (selAux c cs).text : Int)) := by
    rw [hrun, foldl_selStep_fst, foldl_bestStep_selAux]
  have hsnd : (runSelection (c :: cs)).2 = (c :: cs).map candMetaEntry := by
    rw [hrun, foldl_selStep_snd]
    simp
  obtain ⟨i, hi, heq, hdom, hstrict⟩ := selAux_spec cs c
  refine ⟨i, hi, ?_, ?_, ?_, ?_, hsnd⟩
  · show (runSelection (c :: cs)).1.1 = _
    rw [hfst, heq]
  · show pstrip (runSelection (c :: cs)).1.2.1 = _
    rw [hfst, heq]
  · intro j hj
    have := hdom j hj
    rwa [heq] at this
  · intro j hj hji
    have := hstrict j hj hji
    rwa [heq] at this

/-- Witness for C2 at a two-candidate list where the second (Hangul)
candidate strictly outscores the first. -/
theorem c2_selection_invariant_witness :
    c2Cands ≠ [] ∧
    (∃ i, ∃ hi : i < c2Cands.length,
      ocrSelectedName c2Cands = ((c2Cands.get ⟨i, hi⟩).name) ∧
      ocrSelectedText c2Cands = pstrip ((c2Cands.get ⟨i, hi⟩).text) ∧
      (∀ j, ∀ hj : j < c2Cands.length,
        score_text ((c2Cands.get ⟨j, hj⟩).text) ≤ score_text ((c2Cands.get ⟨i, hi⟩).text)) ∧
      (∀ j, ∀ hj : j < c2Cands.length, j < i →
        score_text ((c2Cands.get ⟨j, hj⟩).text) < score_text ((c2Cands.get ⟨i, hi⟩).text)) ∧
      ocrCandidateMeta c2Cands = c2Cands.map candMetaEntry) :=
  ⟨by decide, c2_selection_invariant c2Cands (by decide)⟩

/-! ## Claim C4: engine auto-discovery and the EngineUnavailable error -/

theorem firstExisting_eq_none (ex : List Nat → Bool) :
    ∀ l : List (List Nat), firstExisting ex l = none ↔ ∀ c ∈ l, ex c = false := by
  intro l
  induction l with
  | nil => simp [firstExisting]
  | cons c cs ih =>
    by_cases hc : ex c = true
    · simp [firstExisting, hc]
    · have hc' : ex c = false := by simpa using hc
      simp [firstExisting, hc', ih]

/-- Claim C4 counterexample: the x86 Program Files location is among the
auto-discovery candidates (a searched location), yet the EngineUnavailable
message (here with the re-detection result `None`) does not contain it; it
names neither that directory nor the process PATH, so the message does not
include the searched locations. -/
theorem c4_counterexample :
    tessJoin 92 strPFx86 ∈ tessCandidates 92 none none ∧
    occursIn (tessJoin 92 strPFx86) (engineUnavailableDetail strNone) = false := by
  refine ⟨by decide, by decide⟩

/-- Claim C4 as amended: auto-discovery tries the configured
`TESSERACT_CMD`, then the process PATH, then the common installation
directories (in that order, each step consulted only if the previous one
produced nothing), and only when every candidate is missing does detection
fail; the EngineUnavailable response is a server error (HTTP 500) whose
message contains installation guidance (the `TESSERACT_CMD` variable name
and one example installation path) and ends with the re-detection result,
but not the full list of searched locations. -/
theorem c4_amended (tc wh pf pfx : Option (List Nat)) (sep : Nat)
    (ex : List Nat → Bool) (dr : List Nat) :
    (∀ t, tc = some t → t ≠ [] → detect_tesseract_cmd tc wh pf pfx sep ex = some t) ∧
    (optTruthy tc = none → ∀ w, wh = some w → w ≠ [] →
      detect_tesseract_cmd tc wh pf pfx sep ex = some w) ∧
    (optTruthy tc = none → optTruthy wh = none →
      detect_tesseract_cmd tc wh pf pfx sep ex
        = firstExisting ex (tessCandidates sep pf pfx)) ∧
    (optTruthy tc = none → optTruthy wh = none →
      (∀ c ∈ tessCandidates sep pf pfx, ex c = false) →
      detect_tesseract_cmd tc wh pf pfx sep ex = none) ∧
    occursIn strTESSERACT_CMD (engineUnavailableDetail dr) = true ∧
    occursIn strExamplePath (engineUnavailableDetail dr) = true ∧
    dr <:+ engineUnavailableDetail dr ∧
    (engineUnavailableResponse dr).1 = 500 := by
  refine ⟨?_, ?_, ?_, ?_, ?_, ?_, ⟨strMsgFixed, rfl⟩, rfl⟩
  · intro t ht hne
    subst ht
    simp [detect_tesseract_cmd, optTruthy, hne]
  · intro htc w hw hne
    subst hw
    simp only [detect_tesseract_cmd, htc]
    simp [optTruthy, hne]
  · intro htc hwh
    simp only [detect_tesseract_cmd, htc, hwh]
  · intro htc hwh hall
    simp only [detect_tesseract_cmd, htc, hwh]
    exact (firstExisting_eq_none ex _).mpr hall
  · exact occursIn_append_left dr (by decide)
  · exact occursIn_append_left dr (by decide)

/-- Witness for the amended C4: a configured nonempty `TESSERACT_CMD`
wins over everything else. -/
theorem c4_amended_witness :
    detect_tesseract_cmd (some [84]) none none none 92 (fun _ => false) = some [84] :=
  (c4_amended (some [84]) none none none 92 (fun _ => false) []).1 [84] rfl (by decide)

/-! ## Claim C6: idempotence of the certificate-name normalizer -/

theorem replaceAllF_zero (p0 : Nat) (ps r s : List Nat) :
    replaceAllF p0 ps r 0 s = s := rfl

theorem replaceAllF_nil (p0 : Nat) (ps r : List Nat) (fuel : Nat) :
    replaceAllF p0 ps r (fuel + 1) [] = [] := rfl

theorem replaceAllF_cons (p0 : Nat) (ps r : List Nat) (fuel c : Nat) (cs : List Nat) :
    replaceAllF p0 ps r (fuel + 1) (c :: cs) =
      if ipo (p0 :: ps) (c :: cs) then
        r ++ replaceAllF p0 ps r fuel (cs.drop ps.length)
      else
        c :: replaceAllF p0 ps r fuel cs := rfl

theorem replaceAllF_eq_nil {p0 : Nat} {ps r : List Nat} (hr : r ≠ []) :
    ∀ fuel s, (replaceAllF p0 ps r fuel s = [] ↔ s = []) := by
  intro fuel s
  cases fuel with
  | zero => rw [replaceAllF_zero]
  | succ fuel =>
    cases s with
    | nil => simp [replaceAllF_nil]
    | cons c cs =>
      rw [replaceAllF_cons]
      by_cases hp : ipo (p0 :: ps) (c :: cs) = true
      · rw [if_pos hp]
        simp [hr]
      · rw [if_neg hp]
        simp

theorem replaceAllF_head_cases {p0 : Nat} {ps r : List Nat} (hr : r ≠ [])
    (fuel : Nat) (s : List Nat) (h : Nat)
    (hh : (replaceAllF p0 ps r fuel s).head? = some h) :
    s.head? = some h ∨ r.head? = some h := by
  cases fuel with
  | zero => left; rwa [replaceAllF_zero] at hh
  | succ fuel =>
    cases s with
    | nil => rw [replaceAllF_nil] at hh; exact absurd hh (by simp)
    | cons c cs =>
      rw [replaceAllF_cons] at hh
      by_cases hp : ipo (p0 :: ps) (c :: cs) = true
      · rw [if_pos hp] at hh
        right
        obtain ⟨r0, rs, rfl⟩ := List.exists_cons_of_ne_nil hr
        simpa using hh
      · rw [if_neg hp] at hh
        left
        simpa using hh

theorem getLast?_cons_ne {c : Nat} {cs : List Nat} (h : cs ≠ []) :
    (c :: cs).getLast? = cs.getLast? := by
  obtain ⟨d, ds, rfl⟩ := List.exists_cons_of_ne_nil h
  exact List.getLast?_cons_cons

theorem getLast?_drop_ne : ∀ (k : Nat) (s : List Nat), s.drop k ≠ [] →
    (s.drop k).getLast? = s.getLast? := by
  intro k
  induction k with
  | zero => intro s _; rfl
  | succ k ih =>
    intro s hs
    cases s with
    | nil => simp at hs
    | cons c cs =>
      rw [List.drop_succ_cons] at hs ⊢
      have hcs : cs ≠ [] := by
        intro hnil
        subst hnil
        simp at hs
      rw [ih cs hs, getLast?_cons_ne hcs]

theorem replaceAllF_getLast_cases {p0 : Nat} {ps r : List Nat} (hr : r ≠ []) :
    ∀ (fuel : Nat) (s : List Nat) (h : Nat),
      (replaceAllF p0 ps r fuel s).getLast? = some h →
      s.getLast? = some h ∨ r.getLast? = some h := by
  intro fuel
  induction fuel with
  | zero => intro s h hh; left; rwa [replaceAllF_zero] at hh
  | succ fuel ih =>
    intro s h hh
    cases s with
    | nil => rw [replaceAllF_nil] at hh; exact absurd hh (by simp)
    | cons c cs =>
      rw [replaceAllF_cons] at hh
      by_cases hp : ipo (p0 :: ps) (c :: cs) = true
      · rw [if_pos hp] at hh
        by_cases hout : replaceAllF p0 ps r fuel (cs.drop ps.length) = []
        · rw [hout, List.append_nil] at hh
          right; exact hh
        · rw [List.getLast?_append_of_ne_nil _ hout] at hh
          rcases ih (cs.drop ps.length) h hh with h1 | h1
          · left
            have hdrop : cs.drop ps.length ≠ [] :=
              fun hnil => hout (by rw [hnil]; exact (replaceAllF_eq_nil hr fuel []).mpr rfl)
            have : (c :: cs).drop (ps.length + 1) = cs.drop ps.length :=
              List.drop_succ_cons ..
            rw [← getLast?_drop_ne (ps.length + 1) (c :: cs) (by rwa [this]), this]
            exact h1
          · right; exact h1
      · rw [if_neg hp] at hh
        by_cases hout : replaceAllF p0 ps r fuel cs = []
        · rw [hout] at hh
          have hcs : cs = [] := (replaceAllF_eq_nil hr fuel cs).mp hout
          subst hcs
          left
          simpa using hh
        · rw [getLast?_cons_ne hout] at hh
          rcases ih cs h hh with h1 | h1
          · left
            have hcs : cs ≠ [] :=
              fun hnil => hout (by rw [hnil]; exact (replaceAllF_eq_nil hr fuel []).mpr rfl)
            rwa [getLast?_cons_ne hcs]
          · right; exact h1

theorem replaceAllF_id_of_not_occurs {p0 : Nat} {ps r : List Nat} :
    ∀ (fuel : Nat) (s : List Nat), occursIn (p0 :: ps) s = false →
      replaceAllF p0 ps r fuel s = s := by
  intro fuel
  induction fuel with
  | zero => intro s _; rfl
  | succ fuel ih =>
    intro s hs
    cases s with
    | nil => rfl
    | cons c cs =>
      rw [occursIn_cons, Bool.or_eq_false_iff] at hs
      rw [replaceAllF_cons, if_neg (by rw [hs.1]; simp), ih cs hs.2]

theorem replaceAllF_suffix_back {p0 : Nat} {ps r q : List Nat}
    (hA : ∀ j, j < q.length → 0 < j → ipo (q.drop j) r = false)
    (hB : ∀ j, j < q.length → 0 < j → ipo r (q.drop j) = false) :
    ∀ (fuel : Nat) (s : List Nat) (j : Nat), 0 < j → j < q.length →
      ipo (q.drop j) (replaceAllF p0 ps r fuel s) = true →
      ipo (q.drop j) s = true := by
  intro fuel
  induction fuel with
  | zero => intro s j _ _ hpre; rwa [replaceAllF_zero] at hpre
  | succ fuel ih =>
    intro s j hj0 hjlt hpre
    cases s with
    | nil =>
      rw [replaceAllF_nil] at hpre
      have hne : q.drop j ≠ [] := by
        apply List.ne_nil_of_length_pos
        rw [List.length_drop]
        omega
      obtain ⟨t0, tt, hteq⟩ := List.exists_cons_of_ne_nil hne
      rw [hteq, ipo_nonempty_nil] at hpre
      exact absurd hpre (by simp)
    | cons c cs =>
      rw [replaceAllF_cons] at hpre
      by_cases hp : ipo (p0 :: ps) (c :: cs) = true
      · rw [if_pos hp] at hpre
        rcases ipo_append_elim hpre with h1 | ⟨h1, h2⟩
        · exact absurd h1 (by rw [hA j hjlt hj0]; simp)
        · exact absurd h1 (by rw [hB j hjlt hj0]; simp)
      · rw [if_neg hp] at hpre
        have hdrop := List.drop_eq_getElem_cons hjlt
        rw [hdrop] at hpre ⊢
        rw [ipo_cons_cons, Bool.and_eq_true] at hpre
        obtain ⟨hc, htail⟩ := hpre
        rw [ipo_cons_cons, hc]
        by_cases hlast : j + 1 < q.length
        · rw [ih cs (j + 1) (by omega) hlast htail]
          rfl
        · have hq1 : q.drop (j + 1) = [] := List.drop_eq_nil_of_le (by omega)
          rw [hq1, ipo_nil_left]
          rfl

theorem replaceAllF_no_self_occurs {p0 : Nat} {ps r : List Nat}
    (hlen : (p0 :: ps).length = r.length) (hne : (p0 :: ps) ≠ r)
    (hC2 : ∀ k, k < r.length → 0 < k → ipo (r.drop k) (p0 :: ps) = false)
    (hA : ∀ j, j < (p0 :: ps).length → 0 < j → ipo ((p0 :: ps).drop j) r = false) :
    ∀ (fuel : Nat) (s : List Nat), s.length ≤ fuel →
      occursIn (p0 :: ps) (replaceAllF p0 ps r fuel s) = false := by
  have hB : ∀ j, j < (p0 :: ps).length → 0 < j → ipo r ((p0 :: ps).drop j) = false := by
    intro j hjlt hj0
    by_contra hcon
    have hcon' : ipo r ((p0 :: ps).drop j) = true := by simpa using hcon
    have h1 := ipo_length_le hcon'
    rw [List.length_drop] at h1
    omega
  intro fuel
  induction fuel with
  | zero =>
    intro s hs
    have hsnil : s = [] := List.length_eq_zero.mp (Nat.le_zero.mp hs)
    subst hsnil
    rfl
  | succ fuel ih =>
    intro s hs
    cases s with
    | nil => rfl
    | cons c cs =>
      rw [replaceAllF_cons]
      by_cases hp : ipo (p0 :: ps) (c :: cs) = true
      · rw [if_pos hp]
        have hbound : (cs.drop ps.length).length ≤ fuel := by
          rw [List.length_drop]
          simp only [List.length_cons] at hs
          omega
        have ihout := ih (cs.drop ps.length) hbound
        by_contra hcon
        have hcon' : occursIn (p0 :: ps)
            (r ++ replaceAllF p0 ps r fuel (cs.drop ps.length)) = true := by
          simpa using hcon
        rcases occursIn_append_elim hcon' with ⟨k, hk, hipo⟩ | hocc
        · rcases ipo_append_elim hipo with h1 | ⟨h1, h2⟩
          · rcases Nat.eq_zero_or_pos k with rfl | hkpos
            · rw [List.drop_zero] at h1
              exact hne (ipo_eq_of_length h1 hlen)
            · have hle := ipo_length_le h1
              rw [List.length_drop] at hle
              omega
          · rcases Nat.eq_zero_or_pos k with rfl | hkpos
            · rw [List.drop_zero] at h1
              exact hne (ipo_eq_of_length h1 hlen.symm).symm
            · exact absurd h1 (by rw [hC2 k hk hkpos]; simp)
        · exact absurd hocc (by rw [ihout]; simp)
      · rw [if_neg hp]
        have hbound : cs.length ≤ fuel := by
          simp only [List.length_cons] at hs
          omega
        have ihcs := ih cs hbound
        rw [occursIn_cons]
        have hfst : ipo (p0 :: ps) (c :: replaceAllF p0 ps r fuel cs) = false := by
          by_contra hcon
          have hcon' : ipo (p0 :: ps) (c :: replaceAllF p0 ps r fuel cs) = true := by
            simpa using hcon
          rw [ipo_cons_cons, Bool.and_eq_true] at hcon'
          obtain ⟨hc0, htail⟩ := hcon'
          by_cases hps : ps = []
          · subst hps
            exact hp (by rw [ipo_cons_cons, hc0, ipo_nil_left]; rfl)
          · have hj1 : (1 : Nat) < (p0 :: ps).length := by
              have := List.length_pos.mpr hps
              simp only [List.length_cons]
              omega
            have hsb := replaceAllF_suffix_back hA hB fuel cs 1 (by omega) hj1
              (by simpa using htail)
            have hps' : ipo ps cs = true := by simpa using hsb
            exact hp (by rw [ipo_cons_cons, hc0, hps']; rfl)
        rw [hfst, ihcs]
        rfl

theorem replaceAllF_keeps_not_occurs {p0 : Nat} {ps r q : List Nat} (hq : q ≠ [])
    (hP0 : occursIn q r = false)
    (hP1 : ∀ k, k < r.length → r.length - k < q.length → ipo (r.drop k) q = false)
    (hA : ∀ j, j < q.length → 0 < j → ipo (q.drop j) r = false)
    (hB : ∀ j, j < q.length → 0 < j → ipo r (q.drop j) = false) :
    ∀ (fuel : Nat) (s : List Nat), s.length ≤ fuel → occursIn q s = false →
      occursIn q (replaceAllF p0 ps r fuel s) = false := by
  obtain ⟨q0, qs, rfl⟩ := List.exists_cons_of_ne_nil hq
  intro fuel
  induction fuel with
  | zero => intro s _ hocc; rwa [replaceAllF_zero]
  | succ fuel ih =>
    intro s hs hocc
    cases s with
    | nil => rfl
    | cons c cs =>
      rw [occursIn_cons, Bool.or_eq_false_iff] at hocc
      obtain ⟨hocc1, hocc2⟩ := hocc
      rw [replaceAllF_cons]
      by_cases hp : ipo (p0 :: ps) (c :: cs) = true
      · rw [if_pos hp]
        have hbound : (cs.drop ps.length).length ≤ fuel := by
          rw [List.length_drop]
          simp only [List.length_cons] at hs
          omega
        have hoccd : occursIn (q0 :: qs) (cs.drop ps.length) = false := by
          by_contra hcon
          have hcon' : occursIn (q0 :: qs) (cs.drop ps.length) = true := by simpa using hcon
          exact absurd (occursIn_drop ps.length hcon') (by rw [hocc2]; simp)
        have ihout := ih (cs.drop ps.length) hbound hoccd
        by_contra hcon
        have hcon' : occursIn (q0 :: qs)
            (r ++ replaceAllF p0 ps r fuel (cs.drop ps.length)) = true := by
          simpa using hcon
        rcases occursIn_append_elim hcon' with ⟨k, hk, hipo⟩ | hocc3
        · rcases ipo_append_elim hipo with h1 | ⟨h1, h2⟩
          · have hin : occursIn (q0 :: qs) r = true := occursIn_drop k (occursIn_of_ipo h1)
            exact absurd hin (by rw [hP0]; simp)
          · by_cases hklen : r.length - k < (q0 :: qs).length
            · exact absurd h1 (by rw [hP1 k hk hklen]; simp)
            · have hle := ipo_length_le h1
              rw [List.length_drop] at hle
              have heq : r.drop k = (q0 :: qs) :=
                ipo_eq_of_length h1 (by rw [List.length_drop]; omega)
              have hin : occursIn (q0 :: qs) r = true := by
                rw [← heq]
                exact occursIn_drop k (occursIn_of_ipo (ipo_refl _))
              exact absurd hin (by rw [hP0]; simp)
        · exact absurd hocc3 (by rw [ihout]; simp)
      · rw [if_neg hp]
        have hbound : cs.length ≤ fuel := by
          simp only [List.length_cons] at hs
          omega
        have ihcs := ih cs hbound hocc2
        rw [occursIn_cons]
        have hfst : ipo (q0 :: qs) (c :: replaceAllF p0 ps r fuel cs) = false := by
          by_contra hcon
          have hcon' : ipo (q0 :: qs) (c :: replaceAllF p0 ps r fuel cs) = true := by
            simpa using hcon
          rw [ipo_cons_cons, Bool.and_eq_true] at hcon'
          obtain ⟨hc0, htail⟩ := hcon'
          by_cases hqs : qs = []
          · subst hqs
            have hin : ipo (q0 :: ([] : List Nat)) (c :: cs) = true := by
              rw [ipo_cons_cons, hc0, ipo_nil_left]
              rfl
            exact absurd hin (by rw [hocc1]; simp)
          · have hj1 : (1 : Nat) < (q0 :: qs).length := by
              have := List.length_pos.mpr hqs
              simp only [List.length_cons]
              omega
            have hsb := replaceAllF_suffix_back hA hB fuel cs 1 (by omega) hj1
              (by simpa using htail)
            have hqs' : ipo qs cs = true := by simpa using hsb
            have hin : ipo (q0 :: qs) (c :: cs) = true := by
              rw [ipo_cons_cons, hc0, hqs']
              rfl
            exact absurd hin (by rw [hocc1]; simp)
        rw [hfst, ihcs]
        rfl

theorem final_no_il (s : List Nat) :
    occursIn strIl (ncn4 (ncn3 (ncn2 (ncn1 s)))) = false := by
  have h1 : occursIn strIl (ncn1 s) = false :=
    @replaceAllF_no_self_occurs cIl [cRing] strMil (by decide) (by decide) (by decide)
      (by decide) s.length s le_rfl
  have h2 : occursIn strIl (ncn2 (ncn1 s)) = false :=
    @replaceAllF_keeps_not_occurs cGong [cYu, cAm] strGongYuAp strIl (by decide) (by decide)
      (by decide) (by decide) (by decide) (ncn1 s).length (ncn1 s) le_rfl h1
  have h3 : occursIn strIl (ncn3 (ncn2 (ncn1 s))) = false :=
    @replaceAllF_keeps_not_occurs cSan [cEom] strSanEop strIl (by decide) (by decide)
      (by decide) (by decide) (by decide) (ncn2 (ncn1 s)).length (ncn2 (ncn1 s)) le_rfl h2
  exact @replaceAllF_keeps_not_occurs cSan [cYeop] strSanEop strIl (by decide) (by decide)
    (by decide) (by decide) (by decide) (ncn3 (ncn2 (ncn1 s))).length
    (ncn3 (ncn2 (ncn1 s))) le_rfl h3

theorem final_no_gongyuam (s : List Nat) :
    occursIn strGongYuAm (ncn4 (ncn3 (ncn2 (ncn1 s)))) = false := by
  have h2 : occursIn strGongYuAm (ncn2 (ncn1 s)) = false :=
    @replaceAllF_no_self_occurs cGong [cYu, cAm] strGongYuAp (by decide) (by decide)
      (by decide) (by decide) (ncn1 s).length (ncn1 s) le_rfl
  have h3 : occursIn strGongYuAm (ncn3 (ncn2 (ncn1 s))) = false :=
    @replaceAllF_keeps_not_occurs cSan [cEom] strSanEop strGongYuAm (by decide) (by decide)
      (by decide) (by decide) (by decide) (ncn2 (ncn1 s)).length (ncn2 (ncn1 s)) le_rfl h2
  exact @replaceAllF_keeps_not_occurs cSan [cYeop] strSanEop strGongYuAm (by decide)
    (by decide) (by decide) (by decide) (by decide) (ncn3 (ncn2 (ncn1 s))).length
    (ncn3 (ncn2 (ncn1 s))) le_rfl h3

theorem final_no_saneom (s : List Nat) :
    occursIn strSanEom (ncn4 (ncn3 (ncn2 (ncn1 s)))) = false := by
  have h3 : occursIn strSanEom (ncn3 (ncn2 (ncn1 s))) = false :=
    @replaceAllF_no_self_occurs cSan [cEom] strSanEop (by decide) (by decide) (by decide)
      (by decide) (ncn2 (ncn1 s)).length (ncn2 (ncn1 s)) le_rfl
  exact @replaceAllF_keeps_not_occurs cSan [cYeop] strSanEop strSanEom (by decide)
    (by decide) (by decide) (by decide) (by decide) (ncn3 (ncn2 (ncn1 s))).length
    (ncn3 (ncn2 (ncn1 s))) le_rfl h3

theorem final_no_sanyeop (s : List Nat) :
    occursIn strSanYeop (ncn4 (ncn3 (ncn2 (ncn1 s)))) = false :=
  @replaceAllF_no_self_occurs cSan [cYeop] strSanEop (by decide) (by decide) (by decide)
    (by decide) (ncn3 (ncn2 (ncn1 s))).length (ncn3 (ncn2 (ncn1 s))) le_rfl

theorem head?_dropWhile_not {p : Nat → Bool} {l : List Nat} {a : Nat}
    (h : (l.dropWhile p).head? = some a) : p a = false := by
  induction l with
  | nil => simp [List.dropWhile] at h
  | cons c cs ih =>
    rw [List.dropWhile_cons] at h
    by_cases hc : p c = true
    · rw [if_pos hc] at h
      exact ih h
    · rw [if_neg hc] at h
      have hca : c = a := by simpa using h
      rw [← hca]
      simpa using hc

theorem pystrip_lstrip_split (s : List Nat) : ∃ u, lstrip s = pystrip s ++ u := by
  have hsfx : ((lstrip s).reverse.dropWhile pyIsSpace) <:+ (lstrip s).reverse :=
    List.dropWhile_suffix pyIsSpace
  obtain ⟨t, ht⟩ := hsfx
  refine ⟨t.reverse, ?_⟩
  have := congrArg List.reverse ht
  rw [List.reverse_append, List.reverse_reverse] at this
  exact this.symm

theorem getLast?_rev (l : List Nat) : l.reverse.getLast? = l.head? := by
  cases l with
  | nil => rfl
  | cons c cs =>
    rw [List.reverse_cons, List.getLast?_concat]
    rfl

theorem pystrip_head_not_space {s : List Nat} {h : Nat}
    (hh : (pystrip s).head? = some h) : pyIsSpace h = false := by
  obtain ⟨u, hu⟩ := pystrip_lstrip_split s
  have hl : (lstrip s).head? = some h := by
    rw [hu]
    cases hps : pystrip s with
    | nil => rw [hps] at hh; simp at hh
    | cons x xs =>
      rw [hps] at hh
      simpa using hh
  exact head?_dropWhile_not hl

theorem pystrip_getLast_not_space {s : List Nat} {h : Nat}
    (hh : (pystrip s).getLast? = some h) : pyIsSpace h = false := by
  have h2 : ((lstrip s).reverse.dropWhile pyIsSpace).reverse.getLast? = some h := hh
  rw [getLast?_rev] at h2
  exact head?_dropWhile_not h2

theorem pystrip_of_clean {y : List Nat}
    (hh : ∀ h, y.head? = some h → pyIsSpace h = false)
    (hl : ∀ h, y.getLast? = some h → pyIsSpace h = false) :
    pystrip y = y := by
  have h1 : lstrip y = y := by
    cases y with
    | nil => rfl
    | cons c cs =>
      unfold lstrip
      rw [List.dropWhile_cons, if_neg (by rw [hh c rfl]; simp)]
  show rstrip (lstrip y) = y
  rw [h1]
  unfold rstrip
  cases hy : y.reverse with
  | nil =>
    have hynil : y = [] := by
      have := congrArg List.reverse hy
      rwa [List.reverse_reverse] at this
    rw [hynil]
    rfl
  | cons b bs =>
    have hb : y.getLast? = some b := by
      have h0 := getLast?_rev y.reverse
      rw [List.reverse_reverse] at h0
      rw [h0, hy]
      rfl
    rw [List.dropWhile_cons, if_neg (by rw [hl b hb]; simp), ← hy,
      List.reverse_reverse]

theorem ncn_chain_ne_nil {s : List Nat} (hs : s ≠ []) :
    ncn4 (ncn3 (ncn2 (ncn1 s))) ≠ [] := by
  have h1 : ncn1 s ≠ [] := fun hnil =>
    hs ((@replaceAllF_eq_nil cIl [cRing] strMil (by decide) s.length s).mp hnil)
  have h2 : ncn2 (ncn1 s) ≠ [] := fun hnil =>
    h1 ((@replaceAllF_eq_nil cGong [cYu, cAm] strGongYuAp (by decide)
      (ncn1 s).length (ncn1 s)).mp hnil)
  have h3 : ncn3 (ncn2 (ncn1 s)) ≠ [] := fun hnil =>
    h2 ((@replaceAllF_eq_nil cSan [cEom] strSanEop (by decide)
      (ncn2 (ncn1 s)).length (ncn2 (ncn1 s))).mp hnil)
  exact fun hnil =>
    h3 ((@replaceAllF_eq_nil cSan [cYeop] strSanEop (by decide)
      (ncn3 (ncn2 (ncn1 s))).length (ncn3 (ncn2 (ncn1 s)))).mp hnil)

theorem ncn_chain_head_clean (s : List Nat)
    (hh : ∀ h, s.head? = some h → pyIsSpace h = false) :
    ∀ h, (ncn4 (ncn3 (ncn2 (ncn1 s)))).head? = some h → pyIsSpace h = false := by
  intro h hy
  rcases @replaceAllF_head_cases cSan [cYeop] strSanEop (by decide)
      (ncn3 (ncn2 (ncn1 s))).length (ncn3 (ncn2 (ncn1 s))) h hy with h4 | h4
  · rcases @replaceAllF_head_cases cSan [cEom] strSanEop (by decide)
        (ncn2 (ncn1 s)).length (ncn2 (ncn1 s)) h h4 with h3 | h3
    · rcases @replaceAllF_head_cases cGong [cYu, cAm] strGongYuAp (by decide)
          (ncn1 s).length (ncn1 s) h h3 with h2 | h2
      · rcases @replaceAllF_head_cases cIl [cRing] strMil (by decide)
            s.length s h h2 with h1 | h1
        · exact hh h h1
        · have hx : (48128 : Nat) = h := by simpa [strMil] using h1
          rw [← hx]
          decide
      · have hx : (44277 : Nat) = h := by simpa [strGongYuAp] using h2
        rw [← hx]
        decide
    · have hx : (49328 : Nat) = h := by simpa [strSanEop] using h3
      rw [← hx]
      decide
  · have hx : (49328 : Nat) = h := by simpa [strSanEop] using h4
    rw [← hx]
    decide

theorem ncn_chain_getLast_clean (s : List Nat)
    (hl : ∀ h, s.getLast? = some h → pyIsSpace h = false) :
    ∀ h, (ncn4 (ncn3 (ncn2 (ncn1 s)))).getLast? = some h → pyIsSpace h = false := by
  intro h hy
  rcases @replaceAllF_getLast_cases cSan [cYeop] strSanEop (by decide)
      (ncn3 (ncn2 (ncn1 s))).length (ncn3 (ncn2 (ncn1 s))) h hy with h4 | h4
  · rcases @replaceAllF_getLast_cases cSan [cEom] strSanEop (by decide)
        (ncn2 (ncn1 s)).length (ncn2 (ncn1 s)) h h4 with h3 | h3
    · rcases @replaceAllF_getLast_cases cGong [cYu, cAm] strGongYuAp (by decide)
          (ncn1 s).length (ncn1 s) h h3 with h2 | h2
      · rcases @replaceAllF_getLast_cases cIl [cRing] strMil (by decide)
            s.length s h h2 with h1 | h1
        · exact hl h h1
        · have hx : (47553 : Nat) = h := by simpa [strMil] using h1
          rw [← hx]
          decide
      · have hx : (50517 : Nat) = h := by simpa [strGongYuAp] using h2
        rw [← hx]
        decide
    · have hx : (50629 : Nat) = h := by simpa [strSanEop] using h3
      rw [← hx]
      decide
  · have hx : (50629 : Nat) = h := by simpa [strSanEop] using h4
    rw [← hx]
    decide

/-- Claim C6: the certificate-name normalizer is idempotent — running
`_normalize_cert_name` on its own output returns that output unchanged,
for every input (null included).  The proof shows that the normalizer's
output contains no occurrence of any of the four replacement patterns and
needs no further stripping. -/
theorem c6_normalizer_idempotent (x : Option (List Nat)) :
    normalize_cert_name (some (normalize_cert_name x)) = normalize_cert_name x := by
  by_cases hs : pystrip (pyOrEmpty x) = []
  · have hx : normalize_cert_name x = [] := by
      unfold normalize_cert_name
      rw [if_pos hs, hs]
    rw [hx]
    rfl
  · have hx : normalize_cert_name x
        = ncn4 (ncn3 (ncn2 (ncn1 (pystrip (pyOrEmpty x))))) := by
      unfold normalize_cert_name
      rw [if_neg hs]
    have hhead := ncn_chain_head_clean (pystrip (pyOrEmpty x))
      (fun h hh => pystrip_head_not_space hh)
    have hlast := ncn_chain_getLast_clean (pystrip (pyOrEmpty x))
      (fun h hh => pystrip_getLast_not_space hh)
    have hyne : ncn4 (ncn3 (ncn2 (ncn1 (pystrip (pyOrEmpty x))))) ≠ [] :=
      ncn_chain_ne_nil hs
    have hstrip : pystrip (ncn4 (ncn3 (ncn2 (ncn1 (pystrip (pyOrEmpty x))))))
        = ncn4 (ncn3 (ncn2 (ncn1 (pystrip (pyOrEmpty x))))) :=
      pystrip_of_clean hhead hlast
    rw [hx]
    unfold normalize_cert_name
    rw [show pyOrEmpty (some (ncn4 (ncn3 (ncn2 (ncn1 (pystrip (pyOrEmpty x)))))))
        = ncn4 (ncn3 (ncn2 (ncn1 (pystrip (pyOrEmpty x))))) from rfl]
    rw [hstrip, if_neg hyne]
    have e1 : ncn1 (ncn4 (ncn3 (ncn2 (ncn1 (pystrip (pyOrEmpty x))))))
        = ncn4 (ncn3 (ncn2 (ncn1 (pystrip (pyOrEmpty x))))) :=
      replaceAllF_id_of_not_occurs _ _ (final_no_il (pystrip (pyOrEmpty x)))
    have e2 : ncn2 (ncn4 (ncn3 (ncn2 (ncn1 (pystrip (pyOrEmpty x))))))
        = ncn4 (ncn3 (ncn2 (ncn1 (pystrip (pyOrEmpty x))))) :=
      replaceAllF_id_of_not_occurs _ _ (final_no_gongyuam (pystrip (pyOrEmpty x)))
    have e3 : ncn3 (ncn4 (ncn3 (ncn2 (ncn1 (pystrip (pyOrEmpty x))))))
        = ncn4 (ncn3 (ncn2 (ncn1 (pystrip (pyOrEmpty x))))) :=
      replaceAllF_id_of_not_occurs _ _ (final_no_saneom (pystrip (pyOrEmpty x)))
    have e4 : ncn4 (ncn4 (ncn3 (ncn2 (ncn1 (pystrip (pyOrEmpty x))))))
        = ncn4 (ncn3 (ncn2 (ncn1 (pystrip (pyOrEmpty x))))) :=
      replaceAllF_id_of_not_occurs _ _ (final_no_sanyeop (pystrip (pyOrEmpty x)))
    rw [e1, e2, e3, e4]

end EveryMentor
